import Mathlib

/-!
Shallow embedding of `get.py` (get-maya-devkit): a scraper that extracts
Maya devkit archive links from an Autodesk page, parses version / update /
platform metadata out of each URL, filters by user-given specifiers, and
downloads + extracts the matches.

Strings are modelled as `String` / `List Char`; Python regexes are modelled
by an explicit backtracking matcher over a token list mirroring the concrete
pattern; `raise` is modelled as `none` / `Except.error`; the filesystem is an
explicit record of directories and files plus a trace of performed actions.
-/

namespace GetMayaDevkit

/-- `os.path.basename`: the part of the path after the last `/`. -/
def basename (s : List Char) : List Char :=
  (s.reverse.takeWhile (fun c => c ≠ '/')).reverse

/-- Python `str.lower()` restricted to its ASCII behaviour. -/
def lowerStr (s : List Char) : List Char :=
  s.map Char.toLower

/-- Python `pat in s` for strings: `pat` occurs as a contiguous substring. -/
def containsSub (pat : List Char) : List Char → Bool
  | [] => pat.isEmpty
  | c :: rest => pat.isPrefixOf (c :: rest) || containsSub pat rest

/-- `parse_platform` (get.py:151-158): lowercase the basename and test the
substrings `windows`, `linux`, `macos`/`mac` in that order; `None` if none. -/
def parse_platform (url : String) : Option String :=
  let base_name := lowerStr (basename url.data)
  if containsSub "windows".data base_name then some "Windows"
  else if containsSub "linux".data base_name then some "Linux"
  else if containsSub "macos".data base_name || containsSub "mac".data base_name then
    some "Mac"
  else none

/-- The `chaotic` table of `parse_update_version` (get.py:116-133), in source
(insertion) order. -/
def chaotic (maya_ver : String) : List (String × Nat) :=
  if maya_ver = "2016" then
    [("Maya2016_DEVKIT", 0), ("Maya2016.1_DEVKIT", 1), ("Maya2016ext2_DEVKIT", 2)]
  else if maya_ver = "2017" then
    [("Maya2017_DEVKIT", 0), ("Maya2017u3_DEVKIT", 3), ("Maya2017u4_DEVKIT", 4)]
  else if maya_ver = "2018" then
    [("Maya2018-DEVKIT", 0), ("Maya2018_DEVKIT", 0),
     ("Maya2018u3_DEVKIT", 3), ("Maya2018u4_DEVKIT", 4)]
  else []

/-- `parse_update_version` (get.py:114-148).  `none` models the final
`raise Exception("Cannot parse update version: ...")`. -/
def parse_update_version (url : String) (maya_ver : String) : Option Nat :=
  let base_name := basename url.data
  match (chaotic maya_ver).find? (fun p => p.1.data.isPrefixOf base_name) with
  | some p => some p.2
  | none =>
    let pre := ("Autodesk_Maya_" ++ maya_ver ++ "_DEVKIT").data
    if pre.isPrefixOf base_name then some 0
    else
      (List.range' 1 9).findSome? (fun i =>
        let preU := ("Autodesk_Maya_" ++ maya_ver ++ "_" ++ toString i
                     ++ "_Update_DEVKIT").data
        if preU.isPrefixOf base_name then some i else none)

/-- Python `url.replace("%20", "+")`: left-to-right, non-overlapping. -/
def replace20 : List Char → List Char
  | '%' :: '2' :: '0' :: rest => '+' :: replace20 rest
  | c :: rest => c :: replace20 rest
  | [] => []

/-- The capture group `(20[12][0-9])` of `parse_maya_version`. -/
def validYear (y : List Char) : Bool :=
  match y with
  | [a, b, c, d] => a == '2' && b == '0' && (c == '1' || c == '2') && d.isDigit
  | _ => false

/-- One attempt of the pattern `/devkit\+(20[12][0-9])/` at the head of `t`
(the leading `.*` of the regex has already consumed a prefix). -/
def yearAt (t : List Char) : Option String :=
  match t with
  | '/' :: 'd' :: 'e' :: 'v' :: 'k' :: 'i' :: 't' :: '+' :: a :: b :: c :: d :: '/' :: _ =>
    if validYear [a, b, c, d] then some (String.mk [a, b, c, d]) else none
  | _ => none

/-- `parse_maya_version` (get.py:107-111): `%20`→`+`, then
`re.match(r".*/devkit\+(20[12][0-9])/.*", url)`.  The leading `.*` is greedy,
so the last occurrence wins; `none` models the `AttributeError` raised by
`.group(1)` on a failed match. -/
def parse_maya_version (url : String) : Option String :=
  let s := replace20 url.data
  (List.range (s.length + 1)).reverse.findSome? (fun i => yearAt (s.drop i))

/-- Python `int()` on a string: optional sign and decimal digits (whitespace,
underscores and non-ASCII digit forms are not modelled); `none` models
`ValueError`. -/
def digitsVal (s : List Char) : Option Nat :=
  if s ≠ [] ∧ s.all Char.isDigit then
    some (s.foldl (fun acc c => acc * 10 + (c.toNat - '0'.toNat)) 0)
  else none

def pyInt : List Char → Option Int
  | '-' :: rest => (digitsVal rest).map (fun n => -(n : Int))
  | '+' :: rest => (digitsVal rest).map (fun n => (n : Int))
  | s => (digitsVal s).map (fun n => (n : Int))

/-- Python `s.split(".")`: split on every dot, keeping empty parts
(`"".split(".") == [""]`). -/
def splitOnDot : List Char → List (List Char)
  | [] => [[]]
  | c :: rest =>
    match splitOnDot rest with
    | [] => [[]]
    | h :: t => if c = '.' then [] :: h :: t else (c :: h) :: t

/-- Lines 162-163 of `parse`: `maya, update = (maya.split(".") + [""])[:2]`,
`update = -1 if update == "*" else int(update or 0)`.  `none` models the
`ValueError` of `int` on a non-integer update part. -/
def splitSpec (maya : String) : Option (String × Int) :=
  let parts := (splitOnDot maya.data).map String.mk ++ [""]
  let major := parts.getD 0 ""
  let upd := parts.getD 1 ""
  if upd = "*" then some (major, -1)
  else if upd = "" then some (major, 0)
  else (pyInt upd.data).map (fun n => (major, n))

/-- The three `continue` tests of the filter loop (get.py:189-194), as the
condition for *keeping* a candidate `(url, maya_ver, update_num)`. -/
def passB (major : String) (upd : Int) (platf : String)
    (c : String × String × Nat) : Bool :=
  (major == "" || major == c.2.1)
  && (upd < 0 || upd == (c.2.2 : Int))
  && (platf == "" || some platf == parse_platform c.1)

/-- Per-URL metadata extraction of the filter loop (get.py:186-187); `none`
models an uncaught exception from either parser. -/
def annotate (r : String) : Option (String × String × Nat) := do
  let v ← parse_maya_version r
  let n ← parse_update_version r v
  pure (r, v, n)

/-- The pure part of `parse` (get.py:184-198): metadata extraction plus
filtering of the extracted URL list, preserving order. -/
def parse_filter (maya platf : String) (urls : List String) :
    Option (List (String × String × Nat)) := do
  let s ← splitSpec maya
  let cands ← urls.mapM annotate
  pure (cands.filter (passB s.1 s.2 platf))

/-! ### The link-extraction regex

`parse_links` (get.py:97-104) applies

    .*<a href="(https://.*\.amazonaws.com/.*/Maya/devkit+.*/.*Maya.*[.dmg zip tgz])".*>.*

with `re.match` to every line.  Note that in this pattern `devkit+` is
`devki` followed by `t+`, `\.amazonaws.com` has an *unescaped* dot before
`com`, and `[.dmg zip tgz]` is a character class over the nine characters
`.` `d` `m` `g` space `z` `i` `p` `t`.  The pattern contains no alternation
and its only starred subterm is `.`, so it is a flat token sequence; we run
it with an explicit backtracking matcher whose `.*`/`t+` try the longest
width first, exactly Python's leftmost + greedy-priority semantics. -/

inductive Tok where
  | lit (l : List Char)
  | anyc
  | cls (cs : List Char)
  | star (c : Char)
  | gap
  | openG
  | closeG

/-- Fuel-bounded size of a token, for the termination fuel. -/
def tokW : Tok → Nat
  | .lit l => l.length + 1
  | .anyc => 1
  | .cls _ => 1
  | .star _ => 1
  | .gap => 1
  | .openG => 1
  | .closeG => 1

def toksW : List Tok → Nat
  | [] => 0
  | t :: ts => tokW t + toksW ts

/-- Run a token sequence against `s` (prefix match, as `re.match`), with
explicit fuel so that the function is structurally recursive and computable
by the kernel.  `g` says whether we are inside the capture group; the result
is the text captured by the group on the first (highest-priority) successful
match.  Greedy subterms (`.*`, modelled by `gap`, and `c*`, modelled by
`star c`) try to consume one more character before settling for stopping
here, which explores widths longest-first — exactly Python's backtracking
priority.  Every recursive call strictly decreases `toksW ts + s.length`,
so the fuel `0` branch is unreachable from `mrun` below. -/
def mrunF : Nat → List Tok → List Char → Bool → Option (List Char)
  | 0, _, _, _ => none
  | fuel + 1, ts0, s, g =>
    match ts0 with
    | [] => some []
    | .lit l :: ts =>
      if l.isPrefixOf s then
        (mrunF fuel ts (s.drop l.length) g).map
          (fun cap => (if g then l else []) ++ cap)
      else none
    | .anyc :: ts =>
      match s with
      | [] => none
      | a :: s' =>
        (mrunF fuel ts s' g).map (fun cap => (if g then [a] else []) ++ cap)
    | .cls cs :: ts =>
      match s with
      | [] => none
      | a :: s' =>
        if a ∈ cs then
          (mrunF fuel ts s' g).map (fun cap => (if g then [a] else []) ++ cap)
        else none
    | .star c :: ts =>
      match s with
      | [] => mrunF fuel ts [] g
      | a :: s' =>
        if a = c then
          match mrunF fuel (.star c :: ts) s' g with
          | some cap => some ((if g then [a] else []) ++ cap)
          | none => mrunF fuel ts s g
        else mrunF fuel ts s g
    | .gap :: ts =>
      match s with
      | [] => mrunF fuel ts [] g
      | a :: s' =>
        match mrunF fuel (.gap :: ts) s' g with
        | some cap => some ((if g then [a] else []) ++ cap)
        | none => mrunF fuel ts s g
    | .openG :: ts => mrunF fuel ts s true
    | .closeG :: ts => mrunF fuel ts s false

def mrun (ts : List Tok) (s : List Char) (g : Bool) : Option (List Char) :=
  mrunF (toksW ts + s.length + 1) ts s g

/-- The token sequence of the `parse_links` pattern, in source order.
The regex fragment `devkit+` (= `devki` then `t+`) is modelled by the
equivalent `devkit` then `t*`, which preserves both the matched language
and the greedy exploration order. -/
def linkPattern : List Tok :=
  [.gap, .lit "<a href=\"".data, .openG,
   .lit "https://".data, .gap, .lit ".amazonaws".data, .anyc, .lit "com/".data,
   .gap, .lit "/Maya/devkit".data, .star 't', .gap, .lit "/".data, .gap,
   .lit "Maya".data, .gap, .cls ['.', 'd', 'm', 'g', ' ', 'z', 'i', 'p', 't'],
   .closeG, .lit "\"".data, .gap, .lit ">".data, .gap]

/-- `parse_links` (get.py:97-104): group 1 of every line the pattern
matches, in source order. -/
def parse_links (lines : List String) : List String :=
  lines.filterMap (fun ln => (mrun linkPattern ln.data false).map String.mk)

/-- Declarative matching semantics for a token sequence: `MSpec ts s g cap`
holds when `ts` matches some prefix of `s` with the group (tracked by `g`)
capturing exactly `cap`.  Widths of `.*` and `t+` are existential here; the
backtracking matcher `mrun` realises one such choice. -/
def MSpec : List Tok → List Char → Bool → List Char → Prop
  | [], _, _, cap => cap = []
  | .lit l :: ts, s, g, cap =>
    ∃ s' c', s = l ++ s' ∧ MSpec ts s' g c' ∧ cap = (if g then l else []) ++ c'
  | .anyc :: ts, s, g, cap =>
    ∃ a s' c', s = a :: s' ∧ MSpec ts s' g c' ∧ cap = (if g then [a] else []) ++ c'
  | .cls cs :: ts, s, g, cap =>
    ∃ a s' c', a ∈ cs ∧ s = a :: s' ∧ MSpec ts s' g c'
      ∧ cap = (if g then [a] else []) ++ c'
  | .star c :: ts, s, g, cap =>
    ∃ k s' c', s = List.replicate k c ++ s' ∧ MSpec ts s' g c'
      ∧ cap = (if g then List.replicate k c else []) ++ c'
  | .gap :: ts, s, g, cap =>
    ∃ u s' c', s = u ++ s' ∧ MSpec ts s' g c' ∧ cap = (if g then u else []) ++ c'
  | .openG :: ts, s, _, cap => MSpec ts s true cap
  | .closeG :: ts, s, _, cap => MSpec ts s false cap

/-- Shape of every URL the link pattern can capture: `https://` scheme, a
host part containing `.amazonaws` + one arbitrary character + `com/`, a path
containing `/Maya/devki` followed by one or more `t`, a later `/`, a later
`Maya`, and a final character drawn from the class `[.dmg zip tgz]`
(i.e. one of `.` `d` `m` `g` space `z` `i` `p` `t`). -/
def LinkUrlShape (cap : List Char) : Prop :=
  ∃ h1 a h2 k h3 h4 h5 e,
    e ∈ ['.', 'd', 'm', 'g', ' ', 'z', 'i', 'p', 't']
    ∧ cap = "https://".data ++ h1 ++ ".amazonaws".data ++ [a] ++ "com/".data
        ++ h2 ++ "/Maya/devkit".data ++ List.replicate k 't' ++ h3 ++ '/' :: h4
        ++ "Maya".data ++ h5 ++ [e]

/-- A line on which the `parse_links` pattern matches: an `<a href="..."`
whose quoted part has `LinkUrlShape`, later followed by `>`. -/
def LineMatches (ln : List Char) : Prop :=
  ∃ u cap v w, LinkUrlShape cap
    ∧ ln = u ++ "<a href=\"".data ++ cap ++ '"' :: (v ++ '>' :: w)

/-- The `.*/devkit\+(20[12][0-9])/.*` pattern of `parse_maya_version` has a
match: the (already `%20`-normalised) string contains `/devkit+YYYY/` with a
plausible year. -/
def HasYearSeg (s : List Char) : Prop :=
  ∃ a y rest, validYear y = true
    ∧ s = a ++ '/' :: 'd' :: 'e' :: 'v' :: 'k' :: 'i' :: 't' :: '+' :: (y ++ '/' :: rest)

/-! ### Pipeline and exit codes (`parse` / `main`, get.py:161-214) -/

/-- Outcome of the single page fetch in `parse`: either the request raised,
or it returned a status code and the response lines. -/
inductive FetchResult where
  | exc
  | resp (code : Nat) (lines : List String)

/-- How a run of the program ends: `sys.exit(n)` / clean return (`exited`),
or an uncaught exception (`crashed`; CPython then exits non-zero with a
traceback). -/
inductive RunExit where
  | exited (n : Nat)
  | crashed
deriving DecidableEq

/-- `parse` (get.py:161-198).  The specifier is split before the fetch; a
non-200 status or a fetch exception exits with code 1; metadata parsing
failures in the filter loop are uncaught. -/
def parse_model (maya platf : String) (fr : FetchResult) :
    Except RunExit (List (String × String × Nat)) :=
  match splitSpec maya with
  | none => .error .crashed
  | some s =>
    match fr with
    | .exc => .error (.exited 1)
    | .resp code lines =>
      if code = 200 then
        match (parse_links lines).mapM annotate with
        | some cands => .ok (cands.filter (passB s.1 s.2 platf))
        | none => .error .crashed
      else .error (.exited 1)

/-- `main` (get.py:201-214).  `obtain_ok c = false` models a download or
extraction failure (uncaught) while processing candidate `c`. -/
def main_model (maya platf : String) (dryrun : Bool) (fr : FetchResult)
    (obtain_ok : String × String × Nat → Bool) : RunExit :=
  match parse_model maya platf fr with
  | .error e => e
  | .ok found =>
    if found.isEmpty then .exited 1
    else if dryrun then .exited 0
    else if found.all obtain_ok then .exited 0
    else .crashed

/-! ### Filesystem model (`download` / `extract` / `obtain`, get.py:59-94) -/

/-- The externally visible filesystem effects: directories and downloaded
archive files that exist, all relative to the script's directory. -/
structure FS where
  dirs : List String
  files : List String
deriving DecidableEq

/-- Side-effecting steps performed against the outside world. -/
inductive Action where
  | download (url : String)
  | unzip (file dest : String)
  | untar (file dest : String)
  | un7z (file dest : String)
deriving DecidableEq

/-- `download` (get.py:82-87): fetch `url` into a file named after the URL's
basename; returns the new state, the performed action and the file path. -/
def download_model (url : String) (fs : FS) : FS × List Action × String :=
  let file_path := String.mk (basename url.data)
  ({ fs with files := file_path :: fs.files }, [.download url], file_path)

/-- `extract` (get.py:59-79): `os.makedirs(dest)` when absent, then dispatch
on the *host* OS name; on a host that is none of Windows/Linux/Darwin the
function falls through all branches and returns having unpacked nothing.
`unpack_ok = false` models a raising archive tool (`none` = uncaught
exception). -/
def extract_model (host : String) (unpack_ok : Bool) (file_path dest : String)
    (fs : FS) : Option (FS × List Action) :=
  let fs1 := if dest ∈ fs.dirs then fs else { fs with dirs := dest :: fs.dirs }
  if host = "Windows" then
    if unpack_ok then some (fs1, [.unzip file_path dest]) else none
  else if host = "Linux" then
    if unpack_ok then some (fs1, [.untar file_path dest]) else none
  else if host = "Darwin" then
    if unpack_ok then some (fs1, [.un7z file_path dest]) else none
  else some (fs1, [])

/-- `obtain` (get.py:90-94): skip entirely when the directory
`<maya_ver>.<update_num>` already exists, else download then extract. -/
def obtain_model (host : String) (unpack_ok : Bool) (url maya_ver : String)
    (update_num : Nat) (fs : FS) : Option (FS × List Action) :=
  let dest := maya_ver ++ "." ++ toString update_num
  if dest ∈ fs.dirs then some (fs, [])
  else
    let d := download_model url fs
    (extract_model host unpack_ok d.2.2 dest d.1).map
      (fun p => (p.1, d.2.1 ++ p.2))

/-! ### Helper lemmas -/

theorem take_append_of_le {α : Type} (n : Nat) (q r : List α) (h : n ≤ q.length) :
    (q ++ r).take n = q.take n := by
  induction q generalizing n with
  | nil =>
    simp only [List.length_nil, Nat.le_zero] at h
    subst h
    simp
  | cons a q ih =>
    cases n with
    | zero => simp
    | succ m =>
      simp only [List.cons_append, List.take_succ_cons]
      rw [ih m (by simpa using h)]

theorem isPrefixOf_append_false (p q r : List Char) (hlen : p.length ≤ q.length)
    (hne : p ≠ q.take p.length) : p.isPrefixOf (q ++ r) = false := by
  rw [Bool.eq_false_iff]
  intro hc
  rw [List.isPrefixOf_iff_prefix] at hc
  have ht := List.prefix_iff_eq_take.mp hc
  rw [take_append_of_le _ _ _ hlen] at ht
  exact hne ht

theorem isPrefixOf_exists_append {p s : List Char} (h : p.isPrefixOf s = true) :
    ∃ r, s = p ++ r := by
  rw [List.isPrefixOf_iff_prefix] at h
  rcases h with ⟨r, hr⟩
  exact ⟨r, hr.symm⟩

/-! ### C10 helper: `extract` always leaves the destination directory. -/

theorem extract_model_cases (host : String) (unpack_ok : Bool)
    (file_path dest : String) (fs : FS) :
    extract_model host unpack_ok file_path dest fs = none
    ∨ ∃ acts, extract_model host unpack_ok file_path dest fs
        = some (if dest ∈ fs.dirs then fs else { fs with dirs := dest :: fs.dirs },
                acts) := by
  simp only [extract_model]
  split_ifs <;> first | exact Or.inl rfl | exact Or.inr ⟨_, rfl⟩

theorem extract_model_dest_mem {host : String} {unpack_ok : Bool}
    {file_path dest : String} {fs fs1 : FS} {acts : List Action}
    (h : extract_model host unpack_ok file_path dest fs = some (fs1, acts)) :
    dest ∈ fs1.dirs := by
  rcases extract_model_cases host unpack_ok file_path dest fs with hc | ⟨a, hc⟩
  · rw [h] at hc
    exact absurd hc (by simp)
  · rw [h] at hc
    rw [Option.some.injEq] at hc
    have h1 : fs1 = if dest ∈ fs.dirs then fs
        else { fs with dirs := dest :: fs.dirs } := congrArg Prod.fst hc
    rw [h1]
    split
    · assumption
    · exact List.mem_cons_self _ _

theorem obtain_model_skip {host : String} {unpack_ok : Bool}
    {url maya_ver : String} {update_num : Nat} {fs : FS}
    (h : (maya_ver ++ "." ++ toString update_num) ∈ fs.dirs) :
    obtain_model host unpack_ok url maya_ver update_num fs = some (fs, []) := by
  unfold obtain_model
  rw [if_pos h]

theorem obtain_model_dest_mem {host : String} {unpack_ok : Bool}
    {url maya_ver : String} {update_num : Nat} {fs fs1 : FS} {acts : List Action}
    (h : obtain_model host unpack_ok url maya_ver update_num fs = some (fs1, acts)) :
    (maya_ver ++ "." ++ toString update_num) ∈ fs1.dirs := by
  simp only [obtain_model] at h
  split at h
  · rw [Option.some.injEq] at h
    have h1 : fs = fs1 := congrArg Prod.fst h
    rw [← h1]
    assumption
  · rcases ho : extract_model host unpack_ok
        (download_model url fs).2.2 (maya_ver ++ "." ++ toString update_num)
        (download_model url fs).1 with _ | p
    · rw [ho] at h
      exact absurd h (by simp)
    · rw [ho] at h
      simp only [Option.map_some', Option.some.injEq] at h
      have h1 : p.1 = fs1 := congrArg Prod.fst h
      rw [← h1]
      exact @extract_model_dest_mem host unpack_ok (download_model url fs).2.2
        (maya_ver ++ "." ++ toString update_num) (download_model url fs).1
        p.1 p.2 ho

/-- C8: when the destination directory `<version>.<update>` already exists,
`obtain` downloads nothing, extracts nothing and leaves the state unchanged,
whatever the archive or the host; consequently, a second `obtain` for the
same version/update right after a first one is a no-op. -/
theorem C8_obtain_idempotent (host : String) (unpack_ok : Bool)
    (url maya_ver : String) (update_num : Nat) (fs : FS) :
    ((maya_ver ++ "." ++ toString update_num) ∈ fs.dirs →
      obtain_model host unpack_ok url maya_ver update_num fs = some (fs, []))
    ∧ (∀ fs1 acts,
        obtain_model host unpack_ok url maya_ver update_num fs = some (fs1, acts) →
        obtain_model host unpack_ok url maya_ver update_num fs1 = some (fs1, [])) := by
  constructor
  · intro h
    exact obtain_model_skip h
  · intro fs1 acts h
    exact obtain_model_skip (obtain_model_dest_mem h)

theorem C8_witness :
    ("2020.3" : String) ∈ (FS.mk ["2020.3"] []).dirs
    ∧ obtain_model "Windows" true "https://a/x.zip" "2020" 3 (FS.mk ["2020.3"] [])
        = some (FS.mk ["2020.3"] [], []) := by
  refine ⟨by decide, ?_⟩
  exact (C8_obtain_idempotent "Windows" true "https://a/x.zip" "2020" 3
    (FS.mk ["2020.3"] [])).1 (by decide)

/-- C10: on a host OS that is none of Windows/Linux/Darwin, `extract` only
creates the destination directory (when absent) and returns, performing no
unpacking and raising nothing; a subsequent `obtain` for a version/update
naming that directory then finds it present and skips download and
extraction. -/
theorem C10_unknown_host (host : String) (unpack_ok : Bool)
    (file_path dest : String) (fs : FS)
    (h1 : host ≠ "Windows") (h2 : host ≠ "Linux") (h3 : host ≠ "Darwin") :
    extract_model host unpack_ok file_path dest fs
      = some (if dest ∈ fs.dirs then fs else { fs with dirs := dest :: fs.dirs }, [])
    ∧ (∀ url maya_ver update_num, maya_ver ++ "." ++ toString update_num = dest →
        ∀ fs1 acts, extract_model host unpack_ok file_path dest fs = some (fs1, acts) →
          obtain_model host unpack_ok url maya_ver update_num fs1 = some (fs1, [])
          ∧ acts = []) := by
  have hext : extract_model host unpack_ok file_path dest fs
      = some (if dest ∈ fs.dirs then fs else { fs with dirs := dest :: fs.dirs }, []) := by
    unfold extract_model
    rw [if_neg h1, if_neg h2, if_neg h3]
  refine ⟨hext, ?_⟩
  intro url maya_ver update_num hdest fs1 acts h
  have hmem : dest ∈ fs1.dirs := extract_model_dest_mem h
  rw [hext] at h
  injection h with h'
  constructor
  · exact obtain_model_skip (by rw [hdest]; exact hmem)
  · exact (congrArg Prod.snd h').symm

theorem C10_witness :
    extract_model "FreeBSD" true "x.zip" "2020.0" (FS.mk [] [])
      = some (FS.mk ["2020.0"] [], [])
    ∧ obtain_model "FreeBSD" true "https://a/x.zip" "2020" 0 (FS.mk ["2020.0"] [])
      = some (FS.mk ["2020.0"] [], []) := by
  have h := C10_unknown_host "FreeBSD" true "x.zip" "2020.0" (FS.mk [] [])
    (by decide) (by decide) (by decide)
  refine ⟨by simpa using h.1, ?_⟩
  exact (h.2 "https://a/x.zip" "2020" 0 (by decide) (FS.mk ["2020.0"] []) []
    (by simpa using h.1)).1

/-- C7: `parse_platform` lowercases the URL's basename and tests for
`windows`, then `linux`, then `macos`/`mac`, in that priority order,
returning the matching canonical label, and `None` when none of the
substrings occurs (never an error). -/
theorem C7_parse_platform (url : String) :
    (containsSub "windows".data (lowerStr (basename url.data)) = true →
      parse_platform url = some "Windows")
    ∧ (containsSub "windows".data (lowerStr (basename url.data)) = false →
       containsSub "linux".data (lowerStr (basename url.data)) = true →
      parse_platform url = some "Linux")
    ∧ (containsSub "windows".data (lowerStr (basename url.data)) = false →
       containsSub "linux".data (lowerStr (basename url.data)) = false →
       (containsSub "macos".data (lowerStr (basename url.data)) = true
        ∨ containsSub "mac".data (lowerStr (basename url.data)) = true) →
      parse_platform url = some "Mac")
    ∧ (containsSub "windows".data (lowerStr (basename url.data)) = false →
       containsSub "linux".data (lowerStr (basename url.data)) = false →
       containsSub "macos".data (lowerStr (basename url.data)) = false →
       containsSub "mac".data (lowerStr (basename url.data)) = false →
      parse_platform url = none) := by
  refine ⟨?_, ?_, ?_, ?_⟩
  · intro h1
    simp [parse_platform, h1]
  · intro h1 h2
    simp [parse_platform, h1, h2]
  · intro h1 h2 h3
    rcases h3 with h3 | h3 <;> simp [parse_platform, h1, h2, h3]
  · intro h1 h2 h3 h4
    simp [parse_platform, h1, h2, h3, h4]

theorem C7_witness :
    parse_platform "https://a/Maya_Windows_and_linux.zip" = some "Windows"
    ∧ parse_platform "https://a/Maya_LINUX.tgz" = some "Linux"
    ∧ parse_platform "https://a/Maya_MacOS.dmg" = some "Mac"
    ∧ parse_platform "https://a/Maya_plain.zip" = none := by
  refine ⟨?_, ?_, ?_, ?_⟩
  · exact (C7_parse_platform "https://a/Maya_Windows_and_linux.zip").1 (by decide)
  · exact (C7_parse_platform "https://a/Maya_LINUX.tgz").2.1 (by decide) (by decide)
  · exact (C7_parse_platform "https://a/Maya_MacOS.dmg").2.2.1 (by decide) (by decide)
      (Or.inl (by decide))
  · exact (C7_parse_platform "https://a/Maya_plain.zip").2.2.2 (by decide) (by decide)
      (by decide) (by decide)

/-! ### C2: update-number resolution -/

theorem findSome?_range'_first {α : Type} (f : Nat → Option α) :
    ∀ (len a d : Nat), a ≤ d → d < a + len →
      (∀ e, a ≤ e → e < d → f e = none) → ∀ y, f d = some y →
      (List.range' a len).findSome? f = some y := by
  intro len
  induction len with
  | zero => intro a d h1 h2; omega
  | succ n ih =>
    intro a d h1 h2 hb y hd
    rw [List.range'_succ]
    by_cases had : a = d
    · subst had
      rw [List.findSome?_cons_of_isSome _ (by simp [hd])]
      exact hd
    · have hnone : f a = none := hb a (Nat.le_refl a) (by omega)
      rw [List.findSome?_cons_of_isNone _ (by simp [hnone])]
      exact ih (a + 1) d (by omega) (by omega) (fun e he1 he2 => hb e (by omega) he2) y hd

theorem chaotic_find?_eq_none {maya_ver : String} {base : List Char}
    (hnone : ∀ p n, (p, n) ∈ chaotic maya_ver → p.data.isPrefixOf base = false) :
    (chaotic maya_ver).find? (fun q => q.1.data.isPrefixOf base) = none := by
  rw [List.find?_eq_none]
  intro q hq
  simp [hnone q.1 q.2 hq]

/-- C2: three-tier update-number resolution, in strict order: (1) a
tabulated prefix for the irregular versions in `chaotic` returns the
tabulated number; (2) otherwise the bare prefix `Autodesk_Maya_<v>_DEVKIT`
returns 0; (3) otherwise the first `d` in 1..9 with prefix
`Autodesk_Maya_<v>_<d>_Update_DEVKIT` returns `d`; with no match the parser
raises.  Includes the claim's table examples. -/
theorem C2_parse_update_version (url maya_ver : String) :
    (∀ p n, (p, n) ∈ chaotic maya_ver →
      p.data.isPrefixOf (basename url.data) = true →
      parse_update_version url maya_ver = some n)
    ∧ ((∀ p n, (p, n) ∈ chaotic maya_ver →
          p.data.isPrefixOf (basename url.data) = false) →
       ("Autodesk_Maya_" ++ maya_ver ++ "_DEVKIT").data.isPrefixOf
          (basename url.data) = true →
      parse_update_version url maya_ver = some 0)
    ∧ ((∀ p n, (p, n) ∈ chaotic maya_ver →
          p.data.isPrefixOf (basename url.data) = false) →
       ("Autodesk_Maya_" ++ maya_ver ++ "_DEVKIT").data.isPrefixOf
          (basename url.data) = false →
       ∀ d, 1 ≤ d → d ≤ 9 →
       (∀ e, 1 ≤ e → e < d →
         ("Autodesk_Maya_" ++ maya_ver ++ "_" ++ toString e
            ++ "_Update_DEVKIT").data.isPrefixOf (basename url.data) = false) →
       ("Autodesk_Maya_" ++ maya_ver ++ "_" ++ toString d
          ++ "_Update_DEVKIT").data.isPrefixOf (basename url.data) = true →
      parse_update_version url maya_ver = some d)
    ∧ ((∀ p n, (p, n) ∈ chaotic maya_ver →
          p.data.isPrefixOf (basename url.data) = false) →
       ("Autodesk_Maya_" ++ maya_ver ++ "_DEVKIT").data.isPrefixOf
          (basename url.data) = false →
       (∀ d, 1 ≤ d → d ≤ 9 →
         ("Autodesk_Maya_" ++ maya_ver ++ "_" ++ toString d
            ++ "_Update_DEVKIT").data.isPrefixOf (basename url.data) = false) →
      parse_update_version url maya_ver = none)
    ∧ parse_update_version "Maya2016ext2_DEVKIT_Mac.dmg" "2016" = some 2
    ∧ parse_update_version "Maya2017u4_DEVKIT_Windows.zip" "2017" = some 4
    ∧ parse_update_version "Maya2018-DEVKIT_Windows.zip" "2018" = some 0 := by
  refine ⟨?_, ?_, ?_, ?_, by decide, by decide, by decide⟩
  · intro p n hmem hpre
    by_cases h16 : maya_ver = "2016"
    · subst h16
      have hch : chaotic "2016" = [("Maya2016_DEVKIT", 0), ("Maya2016.1_DEVKIT", 1),
          ("Maya2016ext2_DEVKIT", 2)] := by decide
      rw [hch] at hmem
      simp only [List.mem_cons, List.not_mem_nil, or_false, Prod.mk.injEq] at hmem
      rcases hmem with ⟨rfl, rfl⟩ | ⟨rfl, rfl⟩ | ⟨rfl, rfl⟩
      · have hfind : (chaotic "2016").find?
            (fun q => q.1.data.isPrefixOf (basename url.data))
            = some ("Maya2016_DEVKIT", 0) := by
          rw [hch]
          exact List.find?_cons_of_pos _ hpre
        simp [parse_update_version, hfind]
      · obtain ⟨r, hr⟩ := isPrefixOf_exists_append hpre
        have f1 : "Maya2016_DEVKIT".data.isPrefixOf (basename url.data) = false := by
          rw [hr]; exact isPrefixOf_append_false _ _ _ (by decide) (by decide)
        have hfind : (chaotic "2016").find?
            (fun q => q.1.data.isPrefixOf (basename url.data))
            = some ("Maya2016.1_DEVKIT", 1) := by
          rw [hch, List.find?_cons_of_neg _ (by simp [f1])]
          exact List.find?_cons_of_pos _ hpre
        simp [parse_update_version, hfind]
      · obtain ⟨r, hr⟩ := isPrefixOf_exists_append hpre
        have f1 : "Maya2016_DEVKIT".data.isPrefixOf (basename url.data) = false := by
          rw [hr]; exact isPrefixOf_append_false _ _ _ (by decide) (by decide)
        have f2 : "Maya2016.1_DEVKIT".data.isPrefixOf (basename url.data) = false := by
          rw [hr]; exact isPrefixOf_append_false _ _ _ (by decide) (by decide)
        have hfind : (chaotic "2016").find?
            (fun q => q.1.data.isPrefixOf (basename url.data))
            = some ("Maya2016ext2_DEVKIT", 2) := by
          rw [hch, List.find?_cons_of_neg _ (by simp [f1]),
            List.find?_cons_of_neg _ (by simp [f2])]
          exact List.find?_cons_of_pos _ hpre
        simp [parse_update_version, hfind]
    · by_cases h17 : maya_ver = "2017"
      · subst h17
        have hch : chaotic "2017" = [("Maya2017_DEVKIT", 0), ("Maya2017u3_DEVKIT", 3),
            ("Maya2017u4_DEVKIT", 4)] := by decide
        rw [hch] at hmem
        simp only [List.mem_cons, List.not_mem_nil, or_false, Prod.mk.injEq] at hmem
        rcases hmem with ⟨rfl, rfl⟩ | ⟨rfl, rfl⟩ | ⟨rfl, rfl⟩
        · have hfind : (chaotic "2017").find?
              (fun q => q.1.data.isPrefixOf (basename url.data))
              = some ("Maya2017_DEVKIT", 0) := by
            rw [hch]
            exact List.find?_cons_of_pos _ hpre
          simp [parse_update_version, hfind]
        · obtain ⟨r, hr⟩ := isPrefixOf_exists_append hpre
          have f1 : "Maya2017_DEVKIT".data.isPrefixOf (basename url.data) = false := by
            rw [hr]; exact isPrefixOf_append_false _ _ _ (by decide) (by decide)
          have hfind : (chaotic "2017").find?
              (fun q => q.1.data.isPrefixOf (basename url.data))
              = some ("Maya2017u3_DEVKIT", 3) := by
            rw [hch, List.find?_cons_of_neg _ (by simp [f1])]
            exact List.find?_cons_of_pos _ hpre
          simp [parse_update_version, hfind]
        · obtain ⟨r, hr⟩ := isPrefixOf_exists_append hpre
          have f1 : "Maya2017_DEVKIT".data.isPrefixOf (basename url.data) = false := by
            rw [hr]; exact isPrefixOf_append_false _ _ _ (by decide) (by decide)
          have f2 : "Maya2017u3_DEVKIT".data.isPrefixOf (basename url.data) = false := by
            rw [hr]; exact isPrefixOf_append_false _ _ _ (by decide) (by decide)
          have hfind : (chaotic "2017").find?
              (fun q => q.1.data.isPrefixOf (basename url.data))
              = some ("Maya2017u4_DEVKIT", 4) := by
            rw [hch, List.find?_cons_of_neg _ (by simp [f1]),
              List.find?_cons_of_neg _ (by simp [f2])]
            exact List.find?_cons_of_pos _ hpre
          simp [parse_update_version, hfind]
      · by_cases h18 : maya_ver = "2018"
        · subst h18
          have hch : chaotic "2018" = [("Maya2018-DEVKIT", 0), ("Maya2018_DEVKIT", 0),
              ("Maya2018u3_DEVKIT", 3), ("Maya2018u4_DEVKIT", 4)] := by decide
          rw [hch] at hmem
          simp only [List.mem_cons, List.not_mem_nil, or_false, Prod.mk.injEq] at hmem
          rcases hmem with ⟨rfl, rfl⟩ | ⟨rfl, rfl⟩ | ⟨rfl, rfl⟩ | ⟨rfl, rfl⟩
          · have hfind : (chaotic "2018").find?
                (fun q => q.1.data.isPrefixOf (basename url.data))
                = some ("Maya2018-DEVKIT", 0) := by
              rw [hch]
              exact List.find?_cons_of_pos _ hpre
            simp [parse_update_version, hfind]
          · obtain ⟨r, hr⟩ := isPrefixOf_exists_append hpre
            have f1 : "Maya2018-DEVKIT".data.isPrefixOf (basename url.data) = false := by
              rw [hr]; exact isPrefixOf_append_false _ _ _ (by decide) (by decide)
            have hfind : (chaotic "2018").find?
                (fun q => q.1.data.isPrefixOf (basename url.data))
                = some ("Maya2018_DEVKIT", 0) := by
              rw [hch, List.find?_cons_of_neg _ (by simp [f1])]
              exact List.find?_cons_of_pos _ hpre
            simp [parse_update_version, hfind]
          · obtain ⟨r, hr⟩ := isPrefixOf_exists_append hpre
            have f1 : "Maya2018-DEVKIT".data.isPrefixOf (basename url.data) = false := by
              rw [hr]; exact isPrefixOf_append_false _ _ _ (by decide) (by decide)
            have f2 : "Maya2018_DEVKIT".data.isPrefixOf (basename url.data) = false := by
              rw [hr]; exact isPrefixOf_append_false _ _ _ (by decide) (by decide)
            have hfind : (chaotic "2018").find?
                (fun q => q.1.data.isPrefixOf (basename url.data))
                = some ("Maya2018u3_DEVKIT", 3) := by
              rw [hch, List.find?_cons_of_neg _ (by simp [f1]),
                List.find?_cons_of_neg _ (by simp [f2])]
              exact List.find?_cons_of_pos _ hpre
            simp [parse_update_version, hfind]
          · obtain ⟨r, hr⟩ := isPrefixOf_exists_append hpre
            have f1 : "Maya2018-DEVKIT".data.isPrefixOf (basename url.data) = false := by
              rw [hr]; exact isPrefixOf_append_false _ _ _ (by decide) (by decide)
            have f2 : "Maya2018_DEVKIT".data.isPrefixOf (basename url.data) = false := by
              rw [hr]; exact isPrefixOf_append_false _ _ _ (by decide) (by decide)
            have f3 : "Maya2018u3_DEVKIT".data.isPrefixOf (basename url.data) = false := by
              rw [hr]; exact isPrefixOf_append_false _ _ _ (by decide) (by decide)
            have hfind : (chaotic "2018").find?
                (fun q => q.1.data.isPrefixOf (basename url.data))
                = some ("Maya2018u4_DEVKIT", 4) := by
              rw [hch, List.find?_cons_of_neg _ (by simp [f1]),
                List.find?_cons_of_neg _ (by simp [f2]),
                List.find?_cons_of_neg _ (by simp [f3])]
              exact List.find?_cons_of_pos _ hpre
            simp [parse_update_version, hfind]
        · have hch : chaotic maya_ver = [] := by
            simp [chaotic, h16, h17, h18]
          rw [hch] at hmem
          exact absurd hmem (List.not_mem_nil _)
  · intro hnone hgen
    have hfind := chaotic_find?_eq_none hnone
    simp only [parse_update_version, hfind]
    rw [if_pos hgen]
  · intro hnone hgen d hd1 hd9 hlt hdpre
    have hfind := chaotic_find?_eq_none hnone
    simp only [parse_update_version, hfind]
    rw [if_neg (by rw [hgen]; exact Bool.false_ne_true)]
    exact findSome?_range'_first _ 9 1 d hd1 (by omega)
      (fun e he1 he2 => by rw [hlt e he1 he2]; rfl) d (by rw [hdpre]; rfl)
  · intro hnone hgen hall
    have hfind := chaotic_find?_eq_none hnone
    simp only [parse_update_version, hfind]
    rw [if_neg (by rw [hgen]; exact Bool.false_ne_true)]
    rw [List.findSome?_eq_none_iff]
    intro x hx
    rw [List.mem_range'] at hx
    obtain ⟨i, hi, rfl⟩ := hx
    rw [hall (1 + 1 * i) (by omega) (by omega)]
    rfl

theorem C2_witness :
    ("Maya2016.1_DEVKIT", 1) ∈ chaotic "2016"
    ∧ parse_update_version "https://a/Maya2016.1_DEVKIT_Linux.tgz" "2016" = some 1
    ∧ parse_update_version "https://a/Autodesk_Maya_2022_3_Update_DEVKIT_Mac.dmg" "2022"
        = some 3 := by
  refine ⟨by decide, ?_, ?_⟩
  · exact (C2_parse_update_version "https://a/Maya2016.1_DEVKIT_Linux.tgz" "2016").1
      "Maya2016.1_DEVKIT" 1 (by decide) (by decide)
  · refine (C2_parse_update_version "https://a/Autodesk_Maya_2022_3_Update_DEVKIT_Mac.dmg"
      "2022").2.2.1 (by intro p n hmem; simp [chaotic] at hmem) (by decide)
      3 (by decide) (by decide) ?_ (by decide)
    intro e he1 he2
    interval_cases e <;> decide

/-! ### C5 / C6: version extraction -/

theorem validYear_shape {y : List Char} (h : validYear y = true) :
    ∃ a b c d, y = [a, b, c, d] := by
  obtain _ | ⟨a, _ | ⟨b, _ | ⟨c, _ | ⟨d, _ | ⟨e, t⟩⟩⟩⟩⟩ := y
  all_goals first
    | exact ⟨_, _, _, _, rfl⟩
    | simp [validYear] at h

theorem yearAt_eq_some_iff (t : List Char) (ys : String) :
    yearAt t = some ys ↔ ∃ y rest, ys = String.mk y ∧ validYear y = true
      ∧ t = '/' :: 'd' :: 'e' :: 'v' :: 'k' :: 'i' :: 't' :: '+' :: (y ++ '/' :: rest) := by
  constructor
  · intro h
    unfold yearAt at h
    split at h
    · rename_i a b c d tail
      split at h
      · rename_i hv
        refine ⟨[a, b, c, d], tail, ?_, hv, by simp⟩
        injection h with h'
        exact h'.symm
      · simp at h
    · simp at h
  · rintro ⟨y, rest, rfl, hv, rfl⟩
    obtain ⟨a, b, c, d, rfl⟩ := validYear_shape hv
    simp [yearAt, hv]

theorem findSome?_isSome_of_mem {α β : Type} {l : List α} {f : α → Option β}
    {x : α} {y : β} (hx : x ∈ l) (hf : f x = some y) : (l.findSome? f).isSome := by
  induction l with
  | nil => cases hx
  | cons a l ih =>
    rcases ha : f a with _ | b
    · rw [List.findSome?_cons_of_isNone _ (by simp [ha])]
      rcases List.mem_cons.mp hx with rfl | hx'
      · rw [ha] at hf
        cases hf
      · exact ih hx'
    · rw [List.findSome?_cons_of_isSome _ (by simp [ha])]
      simp [ha]

theorem parse_maya_version_isSome_iff (url : String) :
    (parse_maya_version url).isSome ↔ HasYearSeg (replace20 url.data) := by
  constructor
  · intro h
    rw [Option.isSome_iff_exists] at h
    obtain ⟨ys, hy⟩ := h
    simp only [parse_maya_version] at hy
    obtain ⟨i, hmem, hi⟩ := List.exists_of_findSome?_eq_some hy
    rw [yearAt_eq_some_iff] at hi
    obtain ⟨y, rest, hys, hv, hshape⟩ := hi
    refine ⟨(replace20 url.data).take i, y, rest, hv, ?_⟩
    conv_lhs => rw [← List.take_append_drop i (replace20 url.data)]
    rw [hshape]
  · rintro ⟨a, y, rest, hv, hs⟩
    have hdrop : (replace20 url.data).drop a.length
        = '/' :: 'd' :: 'e' :: 'v' :: 'k' :: 'i' :: 't' :: '+' :: (y ++ '/' :: rest) := by
      rw [hs]
      exact List.drop_left _ _
    have hya : yearAt ((replace20 url.data).drop a.length) = some (String.mk y) := by
      rw [yearAt_eq_some_iff]
      exact ⟨y, rest, rfl, hv, hdrop⟩
    have hlen : a.length ≤ (replace20 url.data).length := by
      rw [hs]
      simp
    have hmem : a.length ∈ (List.range ((replace20 url.data).length + 1)).reverse := by
      rw [List.mem_reverse, List.mem_range]
      omega
    simp only [parse_maya_version]
    exact findSome?_isSome_of_mem hmem hya

/-- C5: after replacing `%20` with `+`, `parse_maya_version` returns a year
`YYYY` exactly when the URL contains a `/devkit+YYYY/` segment with `YYYY`
matching `20[12][0-9]`, and raises (`none`) when no such segment exists;
every returned year comes from such a segment. -/
theorem C5_parse_maya_version (url : String) :
    (parse_maya_version url = none ↔ ¬ HasYearSeg (replace20 url.data))
    ∧ (∀ y, parse_maya_version url = some y →
        ∃ a rest, validYear y.data = true
          ∧ replace20 url.data
            = a ++ '/' :: 'd' :: 'e' :: 'v' :: 'k' :: 'i' :: 't' :: '+'
                :: (y.data ++ '/' :: rest)) := by
  constructor
  · constructor
    · intro h hseg
      have hsome := (parse_maya_version_isSome_iff url).mpr hseg
      rw [h] at hsome
      simp at hsome
    · intro h
      rcases ho : parse_maya_version url with _ | y
      · rfl
      · exact absurd ((parse_maya_version_isSome_iff url).mp (by simp [ho])) h
  · intro y hy
    simp only [parse_maya_version] at hy
    obtain ⟨i, hmem, hi⟩ := List.exists_of_findSome?_eq_some hy
    rw [yearAt_eq_some_iff] at hi
    obtain ⟨y', rest, hys, hv, hshape⟩ := hi
    subst hys
    refine ⟨(replace20 url.data).take i, rest, hv, ?_⟩
    conv_lhs => rw [← List.take_append_drop i (replace20 url.data)]
    rw [hshape]

theorem C5_witness :
    ∃ a rest, validYear ("2020" : String).data = true
      ∧ replace20 "https://a/devkit%202020/x".data
        = a ++ '/' :: 'd' :: 'e' :: 'v' :: 'k' :: 'i' :: 't' :: '+'
            :: (("2020" : String).data ++ '/' :: rest) :=
  (C5_parse_maya_version "https://a/devkit%202020/x").2 "2020" (by decide)

/-- C6 (amended): a URL returned by the Link Extractor satisfies the version
parser's requirement exactly when it contains (after `%20` → `+`
normalisation) a `/devkit+YYYY/` segment; the extractor pattern itself does
not guarantee this, so the version parser's raise branch is reachable on
extractor output. -/
theorem C6_links_version (lines : List String) (url : String)
    (h : url ∈ parse_links lines) :
    ((parse_maya_version url).isSome ↔ HasYearSeg (replace20 url.data))
    ∧ ∃ ln u2, u2 ∈ parse_links [ln] ∧ parse_maya_version u2 = none := by
  refine ⟨parse_maya_version_isSome_iff url, ?_⟩
  refine ⟨"<a href=\"https://x.amazonaws.com/a/Maya/devkit/Maya.zip\">",
    "https://x.amazonaws.com/a/Maya/devkit/Maya.zip", by decide, by decide⟩

theorem C6_witness :
    HasYearSeg (replace20
      "https://x.amazonaws.com/a/Maya/devkit%202020/Autodesk_Maya_2020_DEVKIT_Windows.zip".data) :=
  ((C6_links_version
      ["<a href=\"https://x.amazonaws.com/a/Maya/devkit%202020/Autodesk_Maya_2020_DEVKIT_Windows.zip\">"]
      "https://x.amazonaws.com/a/Maya/devkit%202020/Autodesk_Maya_2020_DEVKIT_Windows.zip"
      (by decide)).1).mp (by decide)

/-- C6 counterexample: this line matches the `parse_links` pattern and is
returned, yet its URL has no `devkit+YYYY` segment, so `parse_maya_version`
raises on it — the raise branch is reachable on Link Extractor output. -/
theorem C6_counterexample :
    "https://x.amazonaws.com/a/Maya/devkit/Maya.zip"
      ∈ parse_links ["<a href=\"https://x.amazonaws.com/a/Maya/devkit/Maya.zip\">"]
    ∧ parse_maya_version "https://x.amazonaws.com/a/Maya/devkit/Maya.zip" = none := by
  constructor
  · decide
  · decide

/-! ### C1 / C9: filter semantics and idempotence -/

theorem annotate_eq_some {r : String} {c : String × String × Nat}
    (h : annotate r = some c) :
    ∃ v n, parse_maya_version r = some v ∧ parse_update_version r v = some n
      ∧ c = (r, v, n) := by
  rcases hv : parse_maya_version r with _ | v
  · simp [annotate, hv] at h
  · rcases hn : parse_update_version r v with _ | n
    · simp [annotate, hv, hn] at h
    · have he : annotate r = some (r, v, n) := by
        simp [annotate, hv, hn]
      rw [he] at h
      injection h with h'
      exact ⟨v, n, rfl, hn, h'.symm⟩

theorem annotate_fst {r : String} {c : String × String × Nat}
    (h : annotate r = some c) : c.1 = r := by
  obtain ⟨v, n, _, _, rfl⟩ := annotate_eq_some h
  rfl

theorem mapM_annotate_mem {urls : List String} {cands : List (String × String × Nat)}
    (h : urls.mapM annotate = some cands) :
    ∀ c ∈ cands, annotate c.1 = some c := by
  induction urls generalizing cands with
  | nil =>
    simp only [List.mapM_nil, pure, Option.pure_def, Option.some.injEq] at h
    subst h
    intro c hc
    cases hc
  | cons r urls ih =>
    rcases hc0 : annotate r with _ | c0
    · have he : (r :: urls).mapM annotate = none := by
        rw [List.mapM_cons, hc0]
        rfl
      rw [he] at h
      cases h
    · rcases hrest : urls.mapM annotate with _ | rest
      · have he : (r :: urls).mapM annotate = none := by
          rw [List.mapM_cons, hc0, hrest]
          rfl
        rw [he] at h
        cases h
      · have he : (r :: urls).mapM annotate = some (c0 :: rest) := by
          rw [List.mapM_cons, hc0, hrest]
          rfl
        rw [he] at h
        injection h with h'
        subst h'
        intro c hc
        rcases List.mem_cons.mp hc with rfl | hc'
        · rw [annotate_fst hc0]
          exact hc0
        · exact ih hrest c hc'

theorem mapM_annotate_self {L : List (String × String × Nat)}
    (h : ∀ c ∈ L, annotate c.1 = some c) :
    (L.map (fun c => c.1)).mapM annotate = some L := by
  induction L with
  | nil => rfl
  | cons c L ih =>
    rw [List.map_cons, List.mapM_cons, h c (List.mem_cons_self c L)]
    rw [ih (fun c' hc' => h c' (List.mem_cons_of_mem c hc'))]
    rfl

/-- C1 (amended): with the version specifier split into a major part and an
update part (`*` becoming -1, an absent part 0, and any other integer its
value), a candidate passes the filter exactly when the major part is empty
or equals its parsed major version, AND the update part is negative (`*`,
or any negative integer — both accept every update) or equals its parsed
update number, AND the platform specifier is empty or equals its parsed
platform label (case-sensitively); the result lists all passing candidates
in source order.  `"2020.*"` with no platform keeps exactly the candidates
with major version `"2020"`; `"2018"` keeps exactly those with major
`"2018"` and update number 0. -/
theorem C1_filter_semantics (maya platf : String) (urls : List String)
    (major : String) (upd : Int) (cands : List (String × String × Nat))
    (h1 : splitSpec maya = some (major, upd))
    (h2 : urls.mapM annotate = some cands) :
    parse_filter maya platf urls = some (cands.filter (passB major upd platf))
    ∧ (∀ c ∈ cands, passB major upd platf c = true ↔
        ((major = "" ∨ major = c.2.1)
         ∧ (upd < 0 ∨ upd = (c.2.2 : Int))
         ∧ (platf = "" ∨ some platf = parse_platform c.1)))
    ∧ (maya = "2020.*" → platf = "" →
        parse_filter maya platf urls
          = some (cands.filter (fun c => c.2.1 == "2020")))
    ∧ (maya = "2018" → platf = "" →
        parse_filter maya platf urls
          = some (cands.filter (fun c => c.2.1 == "2018" && c.2.2 == 0))) := by
  have hbase : parse_filter maya platf urls
      = some (cands.filter (passB major upd platf)) := by
    simp only [parse_filter, bind, Option.bind, h1, h2, pure, Option.pure_def]
  refine ⟨hbase, ?_, ?_, ?_⟩
  · intro c _
    simp only [passB, Bool.and_eq_true, Bool.or_eq_true, beq_iff_eq,
      decide_eq_true_eq]
    rw [and_assoc]
  · intro hm hp
    subst hm hp
    have hspec : splitSpec "2020.*" = some ("2020", -1) := by decide
    rw [hspec] at h1
    injection h1 with h1'
    injection h1' with hM hU
    subst hM hU
    rw [hbase]
    congr 1
    apply List.filter_congr
    intro c _
    rw [Bool.eq_iff_iff]
    simp only [passB, Bool.and_eq_true, Bool.or_eq_true, beq_iff_eq,
      decide_eq_true_eq]
    constructor
    · rintro ⟨⟨h | h, -⟩, -⟩
      · exact absurd h (by decide)
      · exact h.symm
    · intro h
      exact ⟨⟨Or.inr h.symm, Or.inl (by decide)⟩, Or.inl trivial⟩
  · intro hm hp
    subst hm hp
    have hspec : splitSpec "2018" = some ("2018", 0) := by decide
    rw [hspec] at h1
    injection h1 with h1'
    injection h1' with hM hU
    subst hM hU
    rw [hbase]
    congr 1
    apply List.filter_congr
    intro c _
    rw [Bool.eq_iff_iff]
    simp only [passB, Bool.and_eq_true, Bool.or_eq_true, beq_iff_eq,
      decide_eq_true_eq]
    constructor
    · rintro ⟨⟨h1, h2⟩, -⟩
      refine ⟨?_, ?_⟩
      · rcases h1 with h | h
        · exact absurd h (by decide)
        · exact h.symm
      · rcases h2 with h | h
        · exact absurd h (by decide)
        · omega
    · rintro ⟨h1, h2⟩
      exact ⟨⟨Or.inr h1.symm, Or.inr (by simp [h2])⟩, Or.inl trivial⟩

theorem C1_witness :
    parse_filter "2020.*" ""
      ["https://x.amazonaws.com/a/Maya/devkit%202020/Autodesk_Maya_2020_3_Update_DEVKIT_Windows.zip"]
      = some [("https://x.amazonaws.com/a/Maya/devkit%202020/Autodesk_Maya_2020_3_Update_DEVKIT_Windows.zip",
               "2020", 3)] := by
  have h := (C1_filter_semantics "2020.*" ""
    ["https://x.amazonaws.com/a/Maya/devkit%202020/Autodesk_Maya_2020_3_Update_DEVKIT_Windows.zip"]
    "2020" (-1)
    [("https://x.amazonaws.com/a/Maya/devkit%202020/Autodesk_Maya_2020_3_Update_DEVKIT_Windows.zip",
      "2020", 3)]
    (by decide) (by decide)).2.2.1 rfl rfl
  rw [h]
  decide

/-- C1 counterexample to the claim as stated: with specifier `"2020.-1"`,
the update part is `"-1"` — not the wildcard `"*"`, and equal as a number
to no parsed update — so by the claim no candidate may pass, yet the code
treats every negative update as accept-all and keeps a candidate with
update number 3. -/
theorem C1_counterexample :
    parse_filter "2020.-1" ""
      ["https://x.amazonaws.com/a/Maya/devkit%202020/Autodesk_Maya_2020_3_Update_DEVKIT_Windows.zip"]
      = some [("https://x.amazonaws.com/a/Maya/devkit%202020/Autodesk_Maya_2020_3_Update_DEVKIT_Windows.zip",
               "2020", 3)]
    ∧ ((splitOnDot "2020.-1".data).map String.mk ++ [""]).getD 1 "" = "-1"
    ∧ ("-1" : String) ≠ "*"
    ∧ pyInt "-1".data = some (-1)
    ∧ ((-1 : Int) ≠ ((3 : Nat) : Int)) := by
  refine ⟨by decide, by decide, by decide, by decide, by decide⟩

/-- C9: filtering a candidate list that is already the output of the filter,
with the same specifiers, returns the identical list. -/
theorem C9_filter_idempotent (maya platf : String) (urls : List String)
    (L : List (String × String × Nat))
    (h : parse_filter maya platf urls = some L) :
    parse_filter maya platf (L.map (fun c => c.1)) = some L := by
  rcases hs : splitSpec maya with _ | s
  · have he : parse_filter maya platf urls = none := by
      simp only [parse_filter, bind, Option.bind, hs]
    rw [he] at h
    cases h
  · rcases hcands : urls.mapM annotate with _ | cands
    · have he : parse_filter maya platf urls = none := by
        simp only [parse_filter, bind, Option.bind, hs, hcands]
      rw [he] at h
      cases h
    · have he : parse_filter maya platf urls
          = some (cands.filter (passB s.1 s.2 platf)) := by
        simp only [parse_filter, bind, Option.bind, hs, hcands, pure,
          Option.pure_def]
      rw [he] at h
      injection h with h'
      have hmemL : ∀ c ∈ L, annotate c.1 = some c := by
        intro c hc
        exact mapM_annotate_mem hcands c (List.mem_filter.mp (h' ▸ hc)).1
      have hpass : ∀ c ∈ L, passB s.1 s.2 platf c = true := by
        intro c hc
        exact (List.mem_filter.mp (h' ▸ hc)).2
      simp only [parse_filter, bind, Option.bind, hs, mapM_annotate_self hmemL,
        pure, Option.pure_def, Option.some.injEq]
      exact List.filter_eq_self.mpr hpass

theorem C9_witness :
    parse_filter "2020" "Windows"
      ["https://x.amazonaws.com/a/Maya/devkit%202020/Autodesk_Maya_2020_DEVKIT_Windows.zip"]
      = some [("https://x.amazonaws.com/a/Maya/devkit%202020/Autodesk_Maya_2020_DEVKIT_Windows.zip",
               "2020", 0)] := by
  exact C9_filter_idempotent "2020" "Windows"
    ["https://x.amazonaws.com/a/Maya/devkit%202020/Autodesk_Maya_2020_DEVKIT_Windows.zip"]
    [("https://x.amazonaws.com/a/Maya/devkit%202020/Autodesk_Maya_2020_DEVKIT_Windows.zip",
      "2020", 0)] (by decide)

/-! ### C4: exit codes -/

/-- C4: provided the run does not crash on an unparseable candidate filename
or a failing download/extraction (both of which terminate with an uncaught
exception, not `sys.exit`), the program exits with code 1 exactly when the
fetch raises, the fetch returns a non-200 status, or the filtered candidate
list is empty; it exits with code 0 exactly when at least one candidate
matches (in dry-run mode after printing, otherwise after processing all
candidates). -/
theorem C4_exit_codes (maya platf : String) (dryrun : Bool) (fr : FetchResult)
    (obtain_ok : String × String × Nat → Bool)
    (hs : splitSpec maya ≠ none)
    (hp : ∀ code lines, fr = .resp code lines →
      (parse_links lines).mapM annotate ≠ none)
    (hob : ∀ c, obtain_ok c = true) :
    (main_model maya platf dryrun fr obtain_ok = .exited 1 ↔
       (fr = .exc
        ∨ (∃ code lines, fr = .resp code lines ∧ code ≠ 200)
        ∨ (∃ found, parse_model maya platf fr = .ok found ∧ found = [])))
    ∧ (main_model maya platf dryrun fr obtain_ok = .exited 0 ↔
       (∃ found, parse_model maya platf fr = .ok found ∧ found ≠ [])) := by
  rcases hsp' : splitSpec maya with _ | sp
  · exact absurd hsp' hs
  · cases fr with
    | exc =>
      have hpm : parse_model maya platf .exc = .error (.exited 1) := by
        simp [parse_model, hsp']
      have hmm : main_model maya platf dryrun .exc obtain_ok = .exited 1 := by
        simp [main_model, hpm]
      constructor
      · rw [hmm]
        exact ⟨fun _ => Or.inl rfl, fun _ => rfl⟩
      · rw [hmm]
        constructor
        · intro h
          simp at h
        · rintro ⟨f, hf, -⟩
          rw [hpm] at hf
          cases hf
    | resp code lines =>
      by_cases hc : code = 200
      · subst hc
        rcases hm : (parse_links lines).mapM annotate with _ | cands
        · exact absurd hm (hp 200 lines rfl)
        · have hm' : List.mapM.loop annotate (parse_links lines) [] = some cands := hm
          have hpm : parse_model maya platf (.resp 200 lines)
              = .ok (cands.filter (passB sp.1 sp.2 platf)) := by
            simp [parse_model, hsp', hm']
          by_cases hes : cands.filter (passB sp.1 sp.2 platf) = []
          · have hmm : main_model maya platf dryrun (.resp 200 lines) obtain_ok
                = .exited 1 := by
              simp [main_model, hpm, hes]
            constructor
            · rw [hmm]
              exact ⟨fun _ => Or.inr (Or.inr ⟨_, hpm, hes⟩), fun _ => rfl⟩
            · rw [hmm]
              constructor
              · intro h
                simp at h
              · rintro ⟨f, hf, hne⟩
                rw [hpm] at hf
                injection hf with hf'
                exact absurd (hf' ▸ hes) hne
          · have hmm : main_model maya platf dryrun (.resp 200 lines) obtain_ok
                = .exited 0 := by
              have hall : (cands.filter (passB sp.1 sp.2 platf)).all obtain_ok
                  = true := List.all_eq_true.mpr (fun c _ => hob c)
              cases dryrun <;>
                simp [main_model, hpm, List.isEmpty_iff, hes, hall]
            constructor
            · rw [hmm]
              constructor
              · intro h
                simp at h
              · rintro (h | ⟨c2, l2, heq, hne⟩ | ⟨f, hf, hfe⟩)
                · cases h
                · injection heq with h1 h2
                  exact absurd h1.symm hne
                · rw [hpm] at hf
                  injection hf with hf'
                  exact absurd (hf' ▸ hfe) hes
            · rw [hmm]
              exact ⟨fun _ => ⟨_, hpm, hes⟩, fun _ => rfl⟩
      · have hpm : parse_model maya platf (.resp code lines)
            = .error (.exited 1) := by
          simp [parse_model, hsp', hc]
        have hmm : main_model maya platf dryrun (.resp code lines) obtain_ok
            = .exited 1 := by
          simp [main_model, hpm]
        constructor
        · rw [hmm]
          exact ⟨fun _ => Or.inr (Or.inl ⟨code, lines, rfl, hc⟩), fun _ => rfl⟩
        · rw [hmm]
          constructor
          · intro h
            simp at h
          · rintro ⟨f, hf, -⟩
            rw [hpm] at hf
            cases hf

theorem C4_witness :
    main_model "2020" "" false FetchResult.exc (fun _ => true) = .exited 1 :=
  ((C4_exit_codes "2020" "" false .exc (fun _ => true)
      (by decide)
      (fun code lines h => by cases h)
      (fun c => rfl)).1).mpr (Or.inl rfl)

/-! ### C3: soundness and completeness of the matcher -/

theorem mrunF_nil (n : Nat) (s : List Char) (g : Bool) :
    mrunF (n + 1) [] s g = some [] := rfl

theorem mrunF_lit (n : Nat) (l : List Char) (ts : List Tok) (s : List Char)
    (g : Bool) :
    mrunF (n + 1) (.lit l :: ts) s g
      = if l.isPrefixOf s then
          (mrunF n ts (s.drop l.length) g).map
            (fun cap => (if g then l else []) ++ cap)
        else none := rfl

theorem mrunF_anyc_nil (n : Nat) (ts : List Tok) (g : Bool) :
    mrunF (n + 1) (.anyc :: ts) [] g = none := rfl

theorem mrunF_anyc_cons (n : Nat) (ts : List Tok) (a : Char) (s' : List Char)
    (g : Bool) :
    mrunF (n + 1) (.anyc :: ts) (a :: s') g
      = (mrunF n ts s' g).map (fun cap => (if g then [a] else []) ++ cap) := rfl

theorem mrunF_cls_nil (n : Nat) (cs : List Char) (ts : List Tok) (g : Bool) :
    mrunF (n + 1) (.cls cs :: ts) [] g = none := rfl

theorem mrunF_cls_cons (n : Nat) (cs : List Char) (ts : List Tok) (a : Char)
    (s' : List Char) (g : Bool) :
    mrunF (n + 1) (.cls cs :: ts) (a :: s') g
      = if a ∈ cs then
          (mrunF n ts s' g).map (fun cap => (if g then [a] else []) ++ cap)
        else none := rfl

theorem mrunF_star_nil (n : Nat) (c : Char) (ts : List Tok) (g : Bool) :
    mrunF (n + 1) (.star c :: ts) [] g = mrunF n ts [] g := rfl

theorem mrunF_star_cons (n : Nat) (c : Char) (ts : List Tok) (a : Char)
    (s' : List Char) (g : Bool) :
    mrunF (n + 1) (.star c :: ts) (a :: s') g
      = if a = c then
          (match mrunF n (.star c :: ts) s' g with
           | some cap => some ((if g then [a] else []) ++ cap)
           | none => mrunF n ts (a :: s') g)
        else mrunF n ts (a :: s') g := rfl

theorem mrunF_gap_nil (n : Nat) (ts : List Tok) (g : Bool) :
    mrunF (n + 1) (.gap :: ts) [] g = mrunF n ts [] g := rfl

theorem mrunF_gap_cons (n : Nat) (ts : List Tok) (a : Char) (s' : List Char)
    (g : Bool) :
    mrunF (n + 1) (.gap :: ts) (a :: s') g
      = (match mrunF n (.gap :: ts) s' g with
         | some cap => some ((if g then [a] else []) ++ cap)
         | none => mrunF n ts (a :: s') g) := rfl

theorem mrunF_openG (n : Nat) (ts : List Tok) (s : List Char) (g : Bool) :
    mrunF (n + 1) (.openG :: ts) s g = mrunF n ts s true := rfl

theorem mrunF_closeG (n : Nat) (ts : List Tok) (s : List Char) (g : Bool) :
    mrunF (n + 1) (.closeG :: ts) s g = mrunF n ts s false := rfl

theorem mrunF_sound : ∀ (fuel : Nat) (ts : List Tok) (s : List Char) (g : Bool)
    (cap : List Char), mrunF fuel ts s g = some cap → MSpec ts s g cap := by
  intro fuel
  induction fuel with
  | zero =>
    intro ts s g cap h
    cases h
  | succ n ih =>
    intro ts s g cap h
    cases ts with
    | nil =>
      rw [mrunF_nil] at h
      injection h with h'
      exact h'.symm
    | cons t ts =>
      cases t with
      | lit l =>
        rw [mrunF_lit] at h
        by_cases hp' : l.isPrefixOf s
        · rw [if_pos hp'] at h
          rcases hm : mrunF n ts (s.drop l.length) g with _ | cap0
          · rw [hm] at h
            cases h
          · rw [hm, Option.map_some'] at h
            injection h with h'
            obtain ⟨r, hr⟩ := isPrefixOf_exists_append hp'
            have hdrop : s.drop l.length = r := by
              rw [hr]
              exact List.drop_left _ _
            rw [hdrop] at hm
            exact ⟨r, cap0, hr, ih ts r g cap0 hm, h'.symm⟩
        · rw [if_neg hp'] at h
          cases h
      | anyc =>
        cases s with
        | nil =>
          rw [mrunF_anyc_nil] at h
          cases h
        | cons a s' =>
          rw [mrunF_anyc_cons] at h
          rcases hm : mrunF n ts s' g with _ | cap0
          · rw [hm] at h
            cases h
          · rw [hm, Option.map_some'] at h
            injection h with h'
            exact ⟨a, s', cap0, rfl, ih ts s' g cap0 hm, h'.symm⟩
      | cls cs =>
        cases s with
        | nil =>
          rw [mrunF_cls_nil] at h
          cases h
        | cons a s' =>
          rw [mrunF_cls_cons] at h
          by_cases hin : a ∈ cs
          · rw [if_pos hin] at h
            rcases hm : mrunF n ts s' g with _ | cap0
            · rw [hm] at h
              cases h
            · rw [hm, Option.map_some'] at h
              injection h with h'
              exact ⟨a, s', cap0, hin, rfl, ih ts s' g cap0 hm, h'.symm⟩
          · rw [if_neg hin] at h
            cases h
      | star c =>
        cases s with
        | nil =>
          rw [mrunF_star_nil] at h
          exact ⟨0, [], cap, by simp, ih ts [] g cap h, by cases g <;> simp⟩
        | cons a s' =>
          rw [mrunF_star_cons] at h
          by_cases hac : a = c
          · rw [if_pos hac] at h
            rcases hm : mrunF n (.star c :: ts) s' g with _ | cap0
            · rw [hm] at h
              exact ⟨0, a :: s', cap, by simp, ih ts (a :: s') g cap h,
                by cases g <;> simp⟩
            · rw [hm] at h
              injection h with h'
              obtain ⟨k, s'', c', hs', hmsp, hcap⟩ :=
                ih (.star c :: ts) s' g cap0 hm
              subst hac
              refine ⟨k + 1, s'', c', by simp [List.replicate_succ, hs'],
                hmsp, ?_⟩
              rw [← h']
              cases g <;> simp [hcap, List.replicate_succ]
          · rw [if_neg hac] at h
            exact ⟨0, a :: s', cap, by simp, ih ts (a :: s') g cap h,
              by cases g <;> simp⟩
      | gap =>
        cases s with
        | nil =>
          rw [mrunF_gap_nil] at h
          exact ⟨[], [], cap, rfl, ih ts [] g cap h, by cases g <;> simp⟩
        | cons a s' =>
          rw [mrunF_gap_cons] at h
          rcases hm : mrunF n (.gap :: ts) s' g with _ | cap0
          · rw [hm] at h
            exact ⟨[], a :: s', cap, rfl, ih ts (a :: s') g cap h,
              by cases g <;> simp⟩
          · rw [hm] at h
            injection h with h'
            obtain ⟨u, s'', c', hsplit, hmsp, hcap⟩ :=
              ih (.gap :: ts) s' g cap0 hm
            refine ⟨a :: u, s'', c', by simp [hsplit], hmsp, ?_⟩
            rw [← h']
            cases g <;> simp [hcap]
      | openG =>
        rw [mrunF_openG] at h
        exact ih ts s true cap h
      | closeG =>
        rw [mrunF_closeG] at h
        exact ih ts s false cap h

theorem mrunF_complete : ∀ (fuel : Nat) (ts : List Tok) (s : List Char) (g : Bool)
    (cap : List Char), toksW ts + s.length < fuel → MSpec ts s g cap →
    (mrunF fuel ts s g).isSome := by
  intro fuel
  induction fuel with
  | zero =>
    intro ts s g cap hfuel _
    omega
  | succ n ih =>
    intro ts s g cap hfuel hsp
    cases ts with
    | nil =>
      rw [mrunF_nil]
      rfl
    | cons t ts =>
      cases t with
      | lit l =>
        obtain ⟨s', c', rfl, hm, -⟩ := hsp
        simp only [toksW, tokW, List.length_append] at hfuel
        rw [mrunF_lit]
        have hpre : l.isPrefixOf (l ++ s') = true := by
          rw [List.isPrefixOf_iff_prefix]
          exact List.prefix_append l s'
        rw [if_pos hpre, List.drop_left]
        have := ih ts s' g c' (by omega) hm
        simpa using this
      | anyc =>
        obtain ⟨a, s', c', rfl, hm, -⟩ := hsp
        simp only [toksW, tokW, List.length_cons] at hfuel
        rw [mrunF_anyc_cons]
        have := ih ts s' g c' (by omega) hm
        simpa using this
      | cls cs =>
        obtain ⟨a, s', c', hin, rfl, hm, -⟩ := hsp
        simp only [toksW, tokW, List.length_cons] at hfuel
        rw [mrunF_cls_cons, if_pos hin]
        have := ih ts s' g c' (by omega) hm
        simpa using this
      | star c =>
        obtain ⟨k, s', c', rfl, hm, -⟩ := hsp
        simp only [toksW, tokW, List.length_append, List.length_replicate] at hfuel
        cases k with
        | zero =>
          rw [List.replicate_zero, List.nil_append]
          cases s' with
          | nil =>
            rw [mrunF_star_nil]
            exact ih ts [] g c'
              (by simp only [List.length_nil] at hfuel ⊢; omega) hm
          | cons a s2 =>
            rw [mrunF_star_cons]
            by_cases hac : a = c
            · rw [if_pos hac]
              rcases hrec : mrunF n (.star c :: ts) s2 g with _ | cap0
              · exact ih ts (a :: s2) g c'
                  (by simp only [List.length_cons] at hfuel ⊢; omega) hm
              · rfl
            · rw [if_neg hac]
              exact ih ts (a :: s2) g c'
                (by simp only [List.length_cons] at hfuel ⊢; omega) hm
        | succ k =>
          rw [List.replicate_succ, List.cons_append, mrunF_star_cons, if_pos rfl]
          have hrec : (mrunF n (.star c :: ts) (List.replicate k c ++ s') g).isSome :=
            ih (.star c :: ts) (List.replicate k c ++ s') g
              ((if g then List.replicate k c else []) ++ c')
              (by simp only [toksW, tokW, List.length_append,
                    List.length_replicate]
                  omega)
              ⟨k, s', c', rfl, hm, rfl⟩
          rcases hr : mrunF n (.star c :: ts) (List.replicate k c ++ s') g
              with _ | cap0
          · rw [hr] at hrec
            simp at hrec
          · rfl
      | gap =>
        obtain ⟨u, s', c', rfl, hm, -⟩ := hsp
        simp only [toksW, tokW, List.length_append] at hfuel
        cases u with
        | nil =>
          rw [List.nil_append]
          cases s' with
          | nil =>
            rw [mrunF_gap_nil]
            exact ih ts [] g c'
              (by simp only [List.length_nil] at hfuel ⊢; omega) hm
          | cons a s2 =>
            rw [mrunF_gap_cons]
            rcases hrec : mrunF n (.gap :: ts) s2 g with _ | cap0
            · exact ih ts (a :: s2) g c'
                (by simp only [List.length_cons] at hfuel ⊢; omega) hm
            · rfl
        | cons b u' =>
          rw [List.cons_append, mrunF_gap_cons]
          have hrec : (mrunF n (.gap :: ts) (u' ++ s') g).isSome :=
            ih (.gap :: ts) (u' ++ s') g ((if g then u' else []) ++ c')
              (by simp only [toksW, tokW, List.length_append,
                    List.length_cons] at hfuel ⊢
                  omega)
              ⟨u', s', c', rfl, hm, rfl⟩
          rcases hr : mrunF n (.gap :: ts) (u' ++ s') g with _ | cap0
          · rw [hr] at hrec
            simp at hrec
          · rfl
      | openG =>
        have hm : MSpec ts s true cap := hsp
        simp only [toksW, tokW] at hfuel
        rw [mrunF_openG]
        exact ih ts s true cap (by omega) hm
      | closeG =>
        have hm : MSpec ts s false cap := hsp
        simp only [toksW, tokW] at hfuel
        rw [mrunF_closeG]
        exact ih ts s false cap (by omega) hm

theorem mrun_sound {ts : List Tok} {s : List Char} {g : Bool} {cap : List Char}
    (h : mrun ts s g = some cap) : MSpec ts s g cap :=
  mrunF_sound _ ts s g cap h

theorem mrun_complete {ts : List Tok} {s : List Char} {g : Bool} {cap : List Char}
    (h : MSpec ts s g cap) : (mrun ts s g).isSome :=
  mrunF_complete _ ts s g cap (by omega) h

/-! ### C3: the link pattern's matches, characterised -/

theorem linkPattern_capture {ln cap : List Char}
    (h : MSpec linkPattern ln false cap) :
    LinkUrlShape cap
    ∧ ∃ u v w, ln = u ++ "<a href=\"".data ++ cap ++ '"' :: (v ++ '>' :: w) := by
  simp only [linkPattern, MSpec, Bool.false_eq_true, eq_self_iff_true, if_true,
    if_false, List.nil_append] at h
  obtain ⟨u, s1, c1, hln,
    ⟨s2, c2, hs1,
      ⟨s3, c3, hs2,
        ⟨u4, s4, c4, hs3,
          ⟨s5, c5, hs4,
            ⟨a6, s6, c6, hs5,
              ⟨s7, c7, hs6,
                ⟨u8, s8, c8, hs7,
                  ⟨s9, c9, hs8,
                    ⟨k, s10, c10, hs9,
                      ⟨u11, s11, c11, hs10,
                        ⟨s12, c12, hs11,
                          ⟨u13, s13, c13, hs12,
                            ⟨s14, c14, hs13,
                              ⟨u15, s15, c15, hs14,
                                ⟨a16, s16, c16, hcls, hs15,
                                  ⟨s17, c17, hs16,
                                    ⟨u18, s18, c18, hs17,
                                      ⟨s19, c19, hs18,
                                        ⟨u20, s20, c20, hs19, hc20, hc19⟩,
                                        hc18⟩,
                                      hc17⟩,
                                    hc16⟩,
                                  hc15⟩,
                                hc14⟩,
                              hc13⟩,
                            hc12⟩,
                          hc11⟩,
                        hc10⟩,
                      hc9⟩,
                    hc8⟩,
                  hc7⟩,
                hc6⟩,
              hc5⟩,
            hc4⟩,
          hc3⟩,
        hc2⟩,
      hc1⟩,
    hcap⟩ := h
  subst hcap hc1 hc2 hc3 hc4 hc5 hc6 hc7 hc8 hc9 hc10 hc11 hc12 hc13 hc14
  subst hc15 hc16 hc17 hc18 hc19 hc20
  subst hln hs1 hs2 hs3 hs4 hs5 hs6 hs7 hs8 hs9 hs10 hs11 hs12 hs13 hs14
  subst hs15 hs16 hs17 hs18 hs19
  constructor
  · exact ⟨u4, a6, u8, k, u11, u13, u15, a16, hcls, by simp⟩
  · exact ⟨u, u18, u20 ++ s20, by simp⟩

theorem MSpec_lit_false {ts : List Tok} {s' cap : List Char} (l : List Char)
    (h : MSpec ts s' false cap) : MSpec (.lit l :: ts) (l ++ s') false cap :=
  ⟨s', cap, rfl, h, by simp⟩

theorem MSpec_gap_false {ts : List Tok} {s' cap : List Char} (u : List Char)
    (h : MSpec ts s' false cap) : MSpec (.gap :: ts) (u ++ s') false cap :=
  ⟨u, s', cap, rfl, h, by simp⟩

theorem MSpec_lit_true {ts : List Tok} {s' cap : List Char} (l : List Char)
    (h : MSpec ts s' true cap) :
    MSpec (.lit l :: ts) (l ++ s') true (l ++ cap) :=
  ⟨s', cap, rfl, h, by simp⟩

theorem MSpec_gap_true {ts : List Tok} {s' cap : List Char} (u : List Char)
    (h : MSpec ts s' true cap) :
    MSpec (.gap :: ts) (u ++ s') true (u ++ cap) :=
  ⟨u, s', cap, rfl, h, by simp⟩

theorem MSpec_anyc_true {ts : List Tok} {s' cap : List Char} (a : Char)
    (h : MSpec ts s' true cap) :
    MSpec (.anyc :: ts) (a :: s') true (a :: cap) :=
  ⟨a, s', cap, rfl, h, by simp⟩

theorem MSpec_cls_true {ts : List Tok} {s' cap : List Char} {cs : List Char}
    {a : Char} (ha : a ∈ cs) (h : MSpec ts s' true cap) :
    MSpec (.cls cs :: ts) (a :: s') true (a :: cap) :=
  ⟨a, s', cap, ha, rfl, h, by simp⟩

theorem MSpec_star_true {ts : List Tok} {s' cap : List Char} (c : Char) (k : Nat)
    (h : MSpec ts s' true cap) :
    MSpec (.star c :: ts) (List.replicate k c ++ s') true
      (List.replicate k c ++ cap) :=
  ⟨k, s', cap, rfl, h, by simp⟩

theorem MSpec_openG_intro {ts : List Tok} {s cap : List Char}
    (h : MSpec ts s true cap) : MSpec (.openG :: ts) s false cap := h

theorem MSpec_closeG_intro {ts : List Tok} {s cap : List Char}
    (h : MSpec ts s false cap) : MSpec (.closeG :: ts) s true cap := h

theorem linkPattern_of_line (u v w : List Char) {cap : List Char}
    (hshape : LinkUrlShape cap) :
    MSpec linkPattern
      (u ++ "<a href=\"".data ++ cap ++ '"' :: (v ++ '>' :: w)) false cap := by
  obtain ⟨h1, a, h2, k, h3, h4, h5, e, he, hcap⟩ := hshape
  subst hcap
  have m0 : MSpec [] w false [] := rfl
  have m1 : MSpec [.gap] w false [] := MSpec_gap_false [] m0
  have m2 : MSpec [.lit ">".data, .gap] ('>' :: w) false [] :=
    MSpec_lit_false ">".data m1
  have m3 : MSpec [.gap, .lit ">".data, .gap] (v ++ '>' :: w) false [] :=
    MSpec_gap_false v m2
  have m4 : MSpec [.lit "\"".data, .gap, .lit ">".data, .gap]
      ('"' :: (v ++ '>' :: w)) false [] := MSpec_lit_false "\"".data m3
  have m5 := MSpec_closeG_intro m4
  have m6 := MSpec_cls_true he m5
  have m7 := MSpec_gap_true h5 m6
  have m8 := MSpec_lit_true "Maya".data m7
  have m9 := MSpec_gap_true h4 m8
  have m10 := MSpec_lit_true "/".data m9
  have m11 := MSpec_gap_true h3 m10
  have m12 := MSpec_star_true 't' k m11
  have m13 := MSpec_lit_true "/Maya/devkit".data m12
  have m14 := MSpec_gap_true h2 m13
  have m15 := MSpec_lit_true "com/".data m14
  have m16 := MSpec_anyc_true a m15
  have m17 := MSpec_lit_true ".amazonaws".data m16
  have m18 := MSpec_gap_true h1 m17
  have m19 := MSpec_lit_true "https://".data m18
  have m20 := MSpec_openG_intro m19
  have m21 := MSpec_lit_false "<a href=\"".data m20
  have m22 := MSpec_gap_false u m21
  have heq : u ++ "<a href=\"".data
        ++ ("https://".data ++ h1 ++ ".amazonaws".data ++ [a] ++ "com/".data
            ++ h2 ++ "/Maya/devkit".data ++ List.replicate k 't' ++ h3
            ++ '/' :: h4 ++ "Maya".data ++ h5 ++ [e])
        ++ '"' :: (v ++ '>' :: w)
      = u ++ ("<a href=\"".data
          ++ ("https://".data ++ (h1 ++ (".amazonaws".data ++ (a :: ("com/".data
              ++ (h2 ++ ("/Maya/devkit".data ++ (List.replicate k 't' ++ (h3
              ++ ('/' :: (h4 ++ ("Maya".data ++ (h5
              ++ (e :: ('"' :: (v ++ '>' :: w))))))))))))))))) := by
    simp
  rw [heq]
  have hcapeq : "https://".data ++ h1 ++ ".amazonaws".data ++ [a] ++ "com/".data
        ++ h2 ++ "/Maya/devkit".data ++ List.replicate k 't' ++ h3
        ++ '/' :: h4 ++ "Maya".data ++ h5 ++ [e]
      = "https://".data ++ (h1 ++ (".amazonaws".data ++ (a :: ("com/".data
          ++ (h2 ++ ("/Maya/devkit".data ++ (List.replicate k 't' ++ (h3
          ++ ('/' :: (h4 ++ ("Maya".data ++ (h5 ++ [e])))))))))))) := by
    simp
  rw [hcapeq]
  exact m22

/-- C3 (amended): the Link Extractor returns exactly the captured
href-substrings of the lines matched by its pattern: every returned URL has
scheme `https`, a host part containing `.amazonaws` followed by one
arbitrary character and `com/`, a path containing `/Maya/devkit` (followed
by zero or more further `t`), a later `/` and a later `Maya`, and ends in
one single character from the class `[.dmg zip tgz]`
(`.` `d` `m` `g` space `z` `i` `p` `t`) — not necessarily a `.dmg`/`.zip`/
`.tgz` extension; every line with such an href produces its URL, and every
other line is excluded. -/
theorem C3_link_extractor :
    (∀ (lines : List String) (url : String), url ∈ parse_links lines →
      LinkUrlShape url.data)
    ∧ (∀ ln : String, LineMatches ln.data →
        ∃ url, parse_links [ln] = [url] ∧ LinkUrlShape url.data)
    ∧ (∀ ln : String, ¬ LineMatches ln.data → parse_links [ln] = []) := by
  refine ⟨?_, ?_, ?_⟩
  · intro lines url hmem
    simp only [parse_links, List.mem_filterMap] at hmem
    obtain ⟨ln, hln, hmap⟩ := hmem
    rcases hr : mrun linkPattern ln.data false with _ | cap
    · rw [hr] at hmap
      cases hmap
    · rw [hr, Option.map_some'] at hmap
      injection hmap with h'
      have hshape := (linkPattern_capture (mrun_sound hr)).1
      rw [← h']
      exact hshape
  · intro ln hlm
    obtain ⟨u, cap, v, w, hshape, hln⟩ := hlm
    have hm : MSpec linkPattern ln.data false cap := by
      rw [hln]
      exact linkPattern_of_line u v w hshape
    have hs := mrun_complete hm
    rw [Option.isSome_iff_exists] at hs
    obtain ⟨cap', hc'⟩ := hs
    refine ⟨String.mk cap', ?_, ?_⟩
    · simp [parse_links, hc']
    · exact (linkPattern_capture (mrun_sound hc')).1
  · intro ln hnlm
    rcases hr : mrun linkPattern ln.data false with _ | cap
    · simp [parse_links, hr]
    · exfalso
      obtain ⟨u, v, w, hln⟩ := (linkPattern_capture (mrun_sound hr)).2
      exact hnlm ⟨u, cap, v, w, (linkPattern_capture (mrun_sound hr)).1, hln⟩

theorem C3_witness :
    LinkUrlShape
      "https://x.amazonaws.com/a/Maya/devkit%202020/Autodesk_Maya_2020_DEVKIT_Windows.zip".data :=
  C3_link_extractor.1
    ["<a href=\"https://x.amazonaws.com/a/Maya/devkit%202020/Autodesk_Maya_2020_DEVKIT_Windows.zip\">"]
    "https://x.amazonaws.com/a/Maya/devkit%202020/Autodesk_Maya_2020_DEVKIT_Windows.zip"
    (by decide)

/-- C3 counterexample to the claim as stated: this line's URL ends in
`.tar.gz` — none of the fixed archive extensions `.dmg`/`.zip`/`.tgz` —
yet `parse_links` returns it, because `[.dmg zip tgz]` in the pattern is a
single-character class containing `z`. -/
theorem C3_counterexample :
    parse_links ["<a href=\"https://x.amazonaws.com/a/Maya/devkit/a_Maya.tar.gz\">x</a>"]
      = ["https://x.amazonaws.com/a/Maya/devkit/a_Maya.tar.gz"]
    ∧ ".dmg".data.isSuffixOf "https://x.amazonaws.com/a/Maya/devkit/a_Maya.tar.gz".data
        = false
    ∧ ".zip".data.isSuffixOf "https://x.amazonaws.com/a/Maya/devkit/a_Maya.tar.gz".data
        = false
    ∧ ".tgz".data.isSuffixOf "https://x.amazonaws.com/a/Maya/devkit/a_Maya.tar.gz".data
        = false := by
  refine ⟨by decide, by decide, by decide, by decide⟩

end GetMayaDevkit
